import Mathlib

/-!
# Verification of the cloudviz ROI geometry kernel

Shallow embedding of `cloudviz/roi.py`: the three region-of-interest shapes
(`RectangularROI`, `CircularROI`, `PolygonalROI`), their containment tests and
their mutators.  Coordinates are modelled as rationals (`ℚ`), Python `None`
fields as `Option ℚ`, Python lists as Lean lists.  NumPy's vectorised
containment expressions are modelled elementwise: the mask entry at index `i`
is the scalar expression evaluated at `(xs[i], ys[i])`.

Division in `ℚ` is total with `q / 0 = 0`; `np.seterr(all='ignore')` (line 2
of the source) makes the NumPy evaluation equally non-raising, and in the
polygon test the crossing guard masks the division result wherever the
divisor is zero, so the masks agree.
-/

namespace Roi

/-- `RectangularROI.__init__` / field layout: four bounds, each `None` until
first set. -/
structure RectangularROI where
  xmin : Option ℚ
  xmax : Option ℚ
  ymin : Option ℚ
  ymax : Option ℚ
  deriving Repr, DecidableEq

/-- A fresh `RectangularROI()`: all four bounds are `None`. -/
def RectangularROI.init : RectangularROI :=
  { xmin := none, xmax := none, ymin := none, ymax := none }

/-- `RectangularROI.contains(x, y)`:
`(x > self.xmin) & (x < self.xmax) & (y > self.ymin) & (y < self.ymax)`,
elementwise over the paired samples.  Comparing a float array against `None`
fails, so the undefined-bounds case is modelled as `none`. -/
def RectangularROI.contains (r : RectangularROI) (xs ys : List ℚ) :
    Option (List Bool) :=
  match r.xmin, r.xmax, r.ymin, r.ymax with
  | some xmin, some xmax, some ymin, some ymax =>
      some (List.zipWith (fun x y =>
        decide (x > xmin) && decide (x < xmax) &&
        decide (y > ymin) && decide (y < ymax)) xs ys)
  | _, _, _, _ => none

/-- `RectangularROI.update_limits(xmin, ymin, xmax, ymax)`: overwrite the four
bounds. -/
def RectangularROI.update_limits (r : RectangularROI)
    (xmin ymin xmax ymax : ℚ) : RectangularROI :=
  { r with xmin := some xmin, xmax := some xmax,
           ymin := some ymin, ymax := some ymax }

/-- `RectangularROI.reset()`: all four bounds back to `None`. -/
def RectangularROI.reset (_ : RectangularROI) : RectangularROI :=
  { xmin := none, xmax := none, ymin := none, ymax := none }

/-- `RectangularROI.defined()`: `self.xmin is not None`. -/
def RectangularROI.defined (r : RectangularROI) : Bool :=
  r.xmin.isSome

/-- `CircularROI.__init__` / field layout: center coordinates `None` until
set, radius defaults to `0.`. -/
structure CircularROI where
  xc : Option ℚ
  yc : Option ℚ
  radius : ℚ
  deriving Repr, DecidableEq

/-- A fresh `CircularROI()`: center unset, radius `0.`. -/
def CircularROI.init : CircularROI :=
  { xc := none, yc := none, radius := 0 }

/-- `CircularROI.contains(x, y)`:
`(x - self.xc) ** 2 + (y - self.yc) ** 2 < self.radius ** 2`, elementwise.
Arithmetic with an unset (`None`) center fails, modelled as `none`. -/
def CircularROI.contains (c : CircularROI) (xs ys : List ℚ) :
    Option (List Bool) :=
  match c.xc, c.yc with
  | some xc, some yc =>
      some (List.zipWith (fun x y =>
        decide ((x - xc) ^ 2 + (y - yc) ^ 2 < c.radius ^ 2)) xs ys)
  | _, _ => none

/-- `CircularROI.set_center(x, y)`. -/
def CircularROI.set_center (c : CircularROI) (x y : ℚ) : CircularROI :=
  { c with xc := some x, yc := some y }

/-- `CircularROI.set_radius(radius)`. -/
def CircularROI.set_radius (c : CircularROI) (radius : ℚ) : CircularROI :=
  { c with radius := radius }

/-- `CircularROI.reset()`: center back to `None`, radius back to `0.`. -/
def CircularROI.reset (_ : CircularROI) : CircularROI :=
  { xc := none, yc := none, radius := 0 }

/-- `CircularROI.defined()`: `self.xc is not None`. -/
def CircularROI.defined (c : CircularROI) : Bool :=
  c.xc.isSome

/-- `PolygonalROI.__init__` / field layout: the two vertex-coordinate lists
`vx` and `vy`, both initially empty. -/
structure PolygonalROI where
  vx : List ℚ
  vy : List ℚ
  deriving Repr, DecidableEq

/-- A fresh `PolygonalROI()`: empty vertex lists. -/
def PolygonalROI.init : PolygonalROI :=
  { vx := [], vy := [] }

/-- `np.roll(a, 1)`: rotate right by one, so the entry at index `i` of the
result is the entry at index `i - 1` of `a`, index `0` receiving the last
entry. -/
def roll1 (l : List ℚ) : List ℚ :=
  match l.getLast? with
  | none => []
  | some a => a :: l.dropLast

/-- One edge term of the polygon loop body, at scalar sample `(x, y)`:
`((yi > y) != (yj > y)) & (x < (xj - xi) * (y - yi) / (yj - yi) + xi)`.
Both operands of `&` are evaluated (NumPy `&` is eager), so the division by
`yj - yi` happens for every edge; in `ℚ` a zero divisor yields `0`, and the
guard is false there, matching the masked NumPy result. -/
def crossing (xi yi xj yj x y : ℚ) : Bool :=
  (decide (yi > y) != decide (yj > y)) &&
    decide (x < (xj - xi) * (y - yi) / (yj - yi) + xi)

/-- The loop `for i in range(len(xi)): result += crossing-term`, summed at one
scalar sample: the number of edges whose crossing term is `1`. -/
def PolygonalROI.crossCount (p : PolygonalROI) (x y : ℚ) : ℕ :=
  (List.range p.vx.length).foldl (fun acc i =>
    acc + if crossing (p.vx.getD i 0) (p.vy.getD i 0)
        ((roll1 p.vx).getD i 0) ((roll1 p.vy).getD i 0) x y then 1 else 0) 0

/-- `PolygonalROI.contains(x, y)` at one scalar sample of the input arrays:
`np.mod(result, 2) == 1` after the edge loop. -/
def PolygonalROI.containsPoint (p : PolygonalROI) (x y : ℚ) : Bool :=
  p.crossCount x y % 2 == 1

/-- `PolygonalROI.contains(x, y)`: `result = np.zeros(x.shape, dtype=int)` is
returned unchanged (all entries falsy) when `vx` is empty; otherwise the edge
loop runs elementwise over the paired samples. -/
def PolygonalROI.contains (p : PolygonalROI) (xs ys : List ℚ) : List Bool :=
  if p.vx.isEmpty then List.replicate xs.length false
  else List.zipWith (fun x y => p.containsPoint x y) xs ys

/-- The divisors `yj[i] - yi[i]` that the loop body's division evaluates, one
per edge; NumPy evaluates them for every edge, crossing guard notwithstanding. -/
def PolygonalROI.containsDivisors (p : PolygonalROI) : List ℚ :=
  (List.range p.vx.length).map (fun i =>
    (roll1 p.vy).getD i 0 - p.vy.getD i 0)

/-- `np.seterr(all='ignore')` on line 2 of the module: every NumPy
floating-point error class (divide, invalid, overflow, underflow) is silenced
for all subsequent kernel arithmetic. -/
def numpyErrorsSilenced : Bool := true

/-- `PolygonalROI.add_point(x, y)`: append to both coordinate lists. -/
def PolygonalROI.add_point (p : PolygonalROI) (x y : ℚ) : PolygonalROI :=
  { vx := p.vx ++ [x], vy := p.vy ++ [y] }

/-- `PolygonalROI.reset()`: clear both vertex lists. -/
def PolygonalROI.reset (_ : PolygonalROI) : PolygonalROI :=
  { vx := [], vy := [] }

/-- `PolygonalROI.replace_last_point(x, y)`: overwrite `vx[-1]` and `vy[-1]`
when `len(self.vx) > 0`, otherwise do nothing. -/
def PolygonalROI.replace_last_point (p : PolygonalROI) (x y : ℚ) :
    PolygonalROI :=
  if p.vx.length > 0 then
    { vx := p.vx.set (p.vx.length - 1) x, vy := p.vy.set (p.vy.length - 1) y }
  else p

/-- `min(inds, key=lambda x: dist[x])` over `inds = range(len(dist))`:
Python's `min` keeps the current best unless a strictly smaller key appears,
so ties resolve to the lowest index. -/
def argminIdx (dist : List ℚ) : ℕ :=
  (List.range dist.length).foldl (fun best i =>
    if dist.getD i 0 < dist.getD best 0 then i else best) 0

/-- The `dist` list of `remove_point`: squared Euclidean distances from the
query point to each vertex, over `zip(self.vx, self.vy)`. -/
def PolygonalROI.sqDists (p : PolygonalROI) (x y : ℚ) : List ℚ :=
  List.zipWith (fun a b => (x - a) ^ 2 + (y - b) ^ 2) p.vx p.vy

/-- The final two comprehensions of `remove_point`:
`[vx[i] for i in inds if i != near]` and likewise for `vy`, where `inds`
ranges over the distance list's indices and `near` is the first index of
minimal distance. -/
def PolygonalROI.eraseNear (p : PolygonalROI) (x y : ℚ) : PolygonalROI :=
  { vx := ((List.range (p.sqDists x y).length).filter
        (fun i => i ≠ argminIdx (p.sqDists x y))).map (fun i => p.vx.getD i 0),
    vy := ((List.range (p.sqDists x y).length).filter
        (fun i => i ≠ argminIdx (p.sqDists x y))).map (fun i => p.vy.getD i 0) }

/-- `PolygonalROI.remove_point(x, y, thresh=None)`: no-op on an empty vertex
list; otherwise compute squared distances over `zip(vx, vy)`, find the first
index of minimal distance, and unless a threshold is present and exceeded,
rebuild both lists from the index comprehension skipping that index. -/
def PolygonalROI.remove_point (p : PolygonalROI) (x y : ℚ)
    (thresh : Option ℚ) : PolygonalROI :=
  if p.vx.isEmpty then p
  else
    match thresh with
    | some t =>
        if (p.sqDists x y).getD (argminIdx (p.sqDists x y)) 0 > t ^ 2 then p
        else p.eraseNear x y
    | none => p.eraseNear x y

/-- `PolygonalROI.defined()`: `len(self.vx) > 0`. -/
def PolygonalROI.defined (p : PolygonalROI) : Bool :=
  p.vx.length > 0

/-- The concrete unit square of the specification's test vector:
vertices `[(0,0), (1,0), (1,1), (0,1)]`. -/
def unitSquare : PolygonalROI :=
  { vx := [0, 1, 1, 0], vy := [0, 0, 1, 1] }

/-! ## Specification-side definitions

These follow the specification's own wording of the even-odd rule, to be
compared with the code-side `PolygonalROI.contains`: edges are `(v[i],
v[i-1])`, taken cyclically, with vertex `0`'s predecessor being the last
vertex; an edge crosses iff exactly one of `v[i].y > y` / `v[i-1].y > y`
holds and the horizontal ray's x-intersection with the edge exceeds the
sample's x; the sample is inside iff the crossing count is odd. -/

/-- The specification's predecessor index: vertex `0`'s predecessor is the
last vertex, otherwise `i - 1`. -/
def specPredIdx (n i : ℕ) : ℕ :=
  if i = 0 then n - 1 else i - 1

/-- Written from the specification: the edge `(v[i], v[i-1])` crosses the
horizontal ray from `(x, y)` iff exactly one of the two endpoint `y`
comparisons holds and the ray's x-intersection with the edge exceeds `x`. -/
def specEdgeCrosses (verts : List (ℚ × ℚ)) (x y : ℚ) (i : ℕ) : Bool :=
  let vi := verts.getD i (0, 0)
  let vp := verts.getD (specPredIdx verts.length i) (0, 0)
  (decide (vi.2 > y) != decide (vp.2 > y)) &&
    decide (x < vi.1 + (vp.1 - vi.1) * (y - vi.2) / (vp.2 - vi.2))

/-- Written from the specification: the number of edges crossing the
horizontal ray from `(x, y)`. -/
def specCrossingNumber (verts : List (ℚ × ℚ)) (x y : ℚ) : ℕ :=
  (List.range verts.length).countP (specEdgeCrosses verts x y)

/-! ## Helper lemmas -/

theorem roll1_cons (l : List ℚ) (h : l ≠ []) :
    roll1 l = l.getLast h :: l.dropLast := by
  unfold roll1
  rw [List.getLast?_eq_getLast l h]

theorem roll1_length (l : List ℚ) : (roll1 l).length = l.length := by
  rcases eq_or_ne l [] with rfl | h
  · rfl
  · have hpos : 0 < l.length := List.length_pos.mpr h
    rw [roll1_cons l h]
    simp only [List.length_cons, List.length_dropLast]
    omega

theorem length_pos_ne_nil {l : List ℚ} (h : 0 < l.length) : l ≠ [] := by
  intro hnil
  rw [hnil] at h
  exact absurd h (by simp)

theorem roll1_getD_zero (l : List ℚ) (h : l ≠ []) (d : ℚ) :
    (roll1 l).getD 0 d = l.getD (l.length - 1) d := by
  have hlen : 0 < l.length := List.length_pos.mpr h
  rw [roll1_cons l h, List.getD_cons_zero, List.getLast_eq_getElem l h,
    List.getD_eq_getElem l d (by omega)]

theorem roll1_getD_succ (l : List ℚ) (j : ℕ) (h : j + 1 < l.length) (d : ℚ) :
    (roll1 l).getD (j + 1) d = l.getD j d := by
  have hne : l ≠ [] := length_pos_ne_nil (by omega)
  have hj : j < l.dropLast.length := by
    rw [List.length_dropLast]; omega
  rw [roll1_cons l hne, List.getD_cons_succ,
    List.getD_eq_getElem _ d hj, List.getElem_dropLast,
    List.getD_eq_getElem l d (by omega)]

theorem foldl_add_ite_countP (p : ℕ → Bool) (l : List ℕ) :
    ∀ acc : ℕ,
      l.foldl (fun a i => a + if p i then 1 else 0) acc = acc + l.countP p := by
  induction l with
  | nil => intro acc; simp
  | cons x xs ih =>
      intro acc
      rw [List.foldl_cons, List.countP_cons, ih]
      omega

/-- The accumulator pattern of Python `min(range(n), key=d)`: keep the
incumbent unless a strictly smaller key appears. -/
def argminFold (d : ℕ → ℚ) (n : ℕ) : ℕ :=
  (List.range n).foldl (fun best i => if d i < d best then i else best) 0

theorem argminIdx_eq_argminFold (dist : List ℚ) :
    argminIdx dist = argminFold (fun i => dist.getD i 0) dist.length := rfl

theorem argminFold_succ (d : ℕ → ℚ) (n : ℕ) :
    argminFold d (n + 1) =
      if d n < d (argminFold d n) then n else argminFold d n := by
  unfold argminFold
  rw [List.range_succ, List.foldl_append]
  rfl

theorem argminFold_lt (d : ℕ → ℚ) : ∀ n : ℕ, 0 < n → argminFold d n < n := by
  intro n
  induction n with
  | zero => intro h; exact absurd h (by omega)
  | succ m ih =>
      intro _
      rw [argminFold_succ]
      by_cases hc : d m < d (argminFold d m)
      · rw [if_pos hc]; omega
      · rw [if_neg hc]
        rcases Nat.eq_zero_or_pos m with rfl | hm
        · show argminFold d 0 < 1
          exact Nat.lt_succ_of_le (Nat.le_refl 0)
        · exact Nat.lt_succ_of_lt (ih hm)

theorem argminFold_min (d : ℕ → ℚ) :
    ∀ n : ℕ, ∀ j : ℕ, j < n → d (argminFold d n) ≤ d j := by
  intro n
  induction n with
  | zero => intro j hj; exact absurd hj (by omega)
  | succ m ih =>
      intro j hj
      rw [argminFold_succ]
      by_cases hc : d m < d (argminFold d m)
      · rw [if_pos hc]
        rcases Nat.lt_succ_iff_lt_or_eq.mp hj with hjm | rfl
        · exact le_of_lt (lt_of_lt_of_le hc (ih j hjm))
        · exact le_refl _
      · rw [if_neg hc]
        rcases Nat.lt_succ_iff_lt_or_eq.mp hj with hjm | rfl
        · exact ih j hjm
        · exact le_of_not_lt hc

theorem argminFold_first (d : ℕ → ℚ) :
    ∀ n : ℕ, ∀ j : ℕ, j < argminFold d n → d (argminFold d n) < d j := by
  intro n
  induction n with
  | zero =>
      intro j hj
      have h0 : argminFold d 0 = 0 := rfl
      rw [h0] at hj
      exact absurd hj (by omega)
  | succ m ih =>
      intro j hj
      rw [argminFold_succ] at hj ⊢
      by_cases hc : d m < d (argminFold d m)
      · rw [if_pos hc] at hj ⊢
        exact lt_of_lt_of_le hc (argminFold_min d m j hj)
      · rw [if_neg hc] at hj ⊢
        exact ih j hj

theorem range_map_getD {α : Type} (d : α) :
    ∀ l : List α, (List.range l.length).map (fun i => l.getD i d) = l := by
  intro l
  induction l with
  | nil => rfl
  | cons a t ih =>
      show (List.range (t.length + 1)).map (fun i => (a :: t).getD i d) = a :: t
      rw [List.range_succ_eq_map, List.map_cons, List.map_map]
      rw [List.getD_cons_zero]
      have hcomp : ((fun i => (a :: t).getD i d) ∘ Nat.succ) =
          fun i => t.getD i d := by
        funext i
        show (a :: t).getD (i + 1) d = t.getD i d
        exact List.getD_cons_succ
      rw [hcomp, ih]

theorem range_filter_ne_map {α : Type} :
    ∀ (n : ℕ) (f : ℕ → α) (k : ℕ),
      ((List.range n).filter (fun i => i ≠ k)).map f =
        ((List.range n).map f).eraseIdx k := by
  intro n
  induction n with
  | zero => intro f k; simp
  | succ m ih =>
      intro f k
      rw [List.range_succ_eq_map]
      cases k with
      | zero =>
          rw [List.map_cons, List.eraseIdx_cons_zero, List.map_map]
          rw [List.filter_cons, if_neg (by simp), List.filter_map,
            List.map_map]
          have hall : (List.range m).filter
              ((fun i => decide (i ≠ 0)) ∘ Nat.succ) = List.range m := by
            apply List.filter_eq_self.mpr
            intro a _
            show decide (a + 1 ≠ 0) = true
            simp
          rw [hall]
      | succ k =>
          rw [List.map_cons, List.eraseIdx_cons_succ, List.map_map]
          rw [← ih (f ∘ Nat.succ) k]
          rw [List.filter_cons, if_pos (by simp), List.map_cons,
            List.filter_map, List.map_map]
          have hpred : (List.range m).filter
              ((fun i => decide (i ≠ k + 1)) ∘ Nat.succ) =
              (List.range m).filter (fun i => decide (i ≠ k)) := by
            apply List.filter_congr
            intro a _
            show decide (a + 1 ≠ k + 1) = decide (a ≠ k)
            exact decide_eq_decide.mpr (by omega)
          rw [hpred]

theorem getD_replicate_false (n i : ℕ) :
    (List.replicate n false).getD i false = false := by
  rw [List.getD_eq_getElem?_getD]
  rcases lt_or_ge i n with h | h
  · rw [List.getElem?_eq_getElem (by simpa using h)]
    simp
  · rw [List.getElem?_eq_none (by simpa using h)]
    rfl

/-! ## Claim theorems -/

/-- C2: for every rectangle with defined bounds, `contains` returns a mask
whose entry at each in-range index `i` is true iff `xs[i] > xmin`,
`xs[i] < xmax`, `ys[i] > ymin` and `ys[i] < ymax` all hold; in particular a
sample whose coordinate equals any of the four bounds — e.g. a point on an
edge of a non-degenerate rectangle — is not contained, all four inequalities
being strict. -/
theorem C2_rect_contains_strict (r : RectangularROI) (xmin xmax ymin ymax : ℚ)
    (hx : r.xmin = some xmin) (hX : r.xmax = some xmax)
    (hy : r.ymin = some ymin) (hY : r.ymax = some ymax) (xs ys : List ℚ) :
    (∃ l : List Bool, r.contains xs ys = some l
      ∧ l.length = min xs.length ys.length
      ∧ ∀ i : ℕ, i < xs.length → i < ys.length →
          (l.getD i false = true ↔
            (xs.getD i 0 > xmin ∧ xs.getD i 0 < xmax ∧
             ys.getD i 0 > ymin ∧ ys.getD i 0 < ymax)))
    ∧ (∀ x y : ℚ, (x = xmin ∨ x = xmax ∨ y = ymin ∨ y = ymax) →
        r.contains [x] [y] = some [false]) := by
  have hcon : ∀ xs1 ys1 : List ℚ, r.contains xs1 ys1 =
      some (List.zipWith (fun x y =>
        decide (x > xmin) && decide (x < xmax) &&
        decide (y > ymin) && decide (y < ymax)) xs1 ys1) := by
    intro xs1 ys1
    unfold RectangularROI.contains
    rw [hx, hX, hy, hY]
  constructor
  · refine ⟨_, hcon xs ys, by simp, ?_⟩
    intro i hix hiy
    have hi : i < (List.zipWith (fun x y =>
        decide (x > xmin) && decide (x < xmax) &&
        decide (y > ymin) && decide (y < ymax)) xs ys).length := by
      simp; omega
    rw [List.getD_eq_getElem _ _ hi, List.getElem_zipWith,
      List.getD_eq_getElem _ _ hix, List.getD_eq_getElem _ _ hiy]
    simp [and_assoc]
  · intro x y hedge
    rw [hcon [x] [y]]
    rcases hedge with rfl | rfl | rfl | rfl <;> simp

/-- C2 witness: a concrete defined rectangle, a strictly interior sample and
a sample on the left edge. -/
theorem C2_witness :
    (RectangularROI.mk (some 0) (some 2) (some 0) (some 2)).contains
      [0] [1] = some [false] :=
  (C2_rect_contains_strict (RectangularROI.mk (some 0) (some 2) (some 0)
      (some 2)) 0 2 0 2 rfl rfl rfl rfl [0] [1]).2 0 1 (Or.inl rfl)

/-- C3: for every circle with a defined center, `contains` returns a mask
whose entry at each in-range index is true iff the squared distance to the
center is strictly less than the squared radius; a circle with radius `0`
contains no point. -/
theorem C3_circle_contains_strict (c : CircularROI) (xc yc : ℚ)
    (hx : c.xc = some xc) (hy : c.yc = some yc) (xs ys : List ℚ) :
    (∃ l : List Bool, c.contains xs ys = some l
      ∧ l.length = min xs.length ys.length
      ∧ ∀ i : ℕ, i < xs.length → i < ys.length →
          (l.getD i false = true ↔
            (xs.getD i 0 - xc) ^ 2 + (ys.getD i 0 - yc) ^ 2 < c.radius ^ 2))
    ∧ (c.radius = 0 → ∀ x y : ℚ, c.contains [x] [y] = some [false]) := by
  have hcon : ∀ xs1 ys1 : List ℚ, c.contains xs1 ys1 =
      some (List.zipWith (fun x y =>
        decide ((x - xc) ^ 2 + (y - yc) ^ 2 < c.radius ^ 2)) xs1 ys1) := by
    intro xs1 ys1
    unfold CircularROI.contains
    rw [hx, hy]
  constructor
  · refine ⟨_, hcon xs ys, by simp, ?_⟩
    intro i hix hiy
    have hi : i < (List.zipWith (fun x y =>
        decide ((x - xc) ^ 2 + (y - yc) ^ 2 < c.radius ^ 2)) xs ys).length := by
      simp; omega
    rw [List.getD_eq_getElem _ _ hi, List.getElem_zipWith,
      List.getD_eq_getElem _ _ hix, List.getD_eq_getElem _ _ hiy]
    simp
  · intro hr x y
    rw [hcon [x] [y], hr]
    simp
    positivity

/-- C3 witness: a radius-0 circle at the origin contains nothing. -/
theorem C3_witness :
    (CircularROI.mk (some 0) (some 0) 0).contains [5] [5] = some [false] :=
  (C3_circle_contains_strict (CircularROI.mk (some 0) (some 0) 0) 0 0
      rfl rfl [5] [5]).2 rfl 5 5

/-- C5: a polygon with zero vertices classifies every sample as outside:
`contains` returns the untouched all-false (integer-zero) mask of the input's
length, raising no error. -/
theorem C5_empty_polygon_all_false (p : PolygonalROI) (hp : p.vx = [])
    (xs ys : List ℚ) :
    p.contains xs ys = List.replicate xs.length false
    ∧ ∀ i : ℕ, (p.contains xs ys).getD i false = false := by
  have h : p.contains xs ys = List.replicate xs.length false := by
    unfold PolygonalROI.contains
    rw [hp]
    rfl
  exact ⟨h, fun i => by rw [h]; exact getD_replicate_false _ i⟩

/-- C5 witness: the fresh empty polygon on a two-sample input. -/
theorem C5_witness :
    PolygonalROI.init.contains [1, 2] [3, 4] = List.replicate 2 false :=
  (C5_empty_polygon_all_false PolygonalROI.init rfl [1, 2] [3, 4]).1

/-- C7: `replace_last_point` is a no-op on an empty vertex list; on a
non-empty list it keeps both coordinate-list lengths, keeps every vertex
before the last unchanged, and overwrites the last vertex with `(x, y)`; in
particular `[(1,1)]` updated with `(5,5)` becomes `[(5,5)]`. -/
theorem C7_replace_last_point_spec :
    (∀ (p : PolygonalROI) (x y : ℚ), p.vx = [] → p.replace_last_point x y = p)
    ∧ (∀ (p : PolygonalROI) (x y : ℚ), p.vx ≠ [] →
        ((p.replace_last_point x y).vx.length = p.vx.length
         ∧ (p.replace_last_point x y).vy.length = p.vy.length
         ∧ (∀ i : ℕ, i + 1 < p.vx.length →
             (p.replace_last_point x y).vx.getD i 0 = p.vx.getD i 0)
         ∧ (∀ i : ℕ, i + 1 < p.vy.length →
             (p.replace_last_point x y).vy.getD i 0 = p.vy.getD i 0)
         ∧ (p.replace_last_point x y).vx.getD (p.vx.length - 1) 0 = x
         ∧ (p.vy ≠ [] →
             (p.replace_last_point x y).vy.getD (p.vy.length - 1) 0 = y)))
    ∧ (PolygonalROI.mk [1] [1]).replace_last_point 5 5 = PolygonalROI.mk [5] [5] := by
  refine ⟨?_, ?_, ?_⟩
  · intro p x y hp
    unfold PolygonalROI.replace_last_point
    rw [hp]
    rfl
  · intro p x y hp
    have hpos : 0 < p.vx.length := List.length_pos.mpr hp
    have hrw : p.replace_last_point x y =
        { vx := p.vx.set (p.vx.length - 1) x,
          vy := p.vy.set (p.vy.length - 1) y } := by
      unfold PolygonalROI.replace_last_point
      rw [if_pos (by simpa using hpos)]
    rw [hrw]
    refine ⟨by simp, by simp, ?_, ?_, ?_, ?_⟩
    · intro i hi
      have hilt : i < (p.vx.set (p.vx.length - 1) x).length := by simp; omega
      rw [List.getD_eq_getElem _ _ hilt,
        List.getElem_set_ne (by omega) hilt,
        List.getD_eq_getElem _ _ (by omega)]
    · intro i hi
      have hilt : i < (p.vy.set (p.vy.length - 1) y).length := by simp; omega
      rw [List.getD_eq_getElem _ _ hilt,
        List.getElem_set_ne (by omega) hilt,
        List.getD_eq_getElem _ _ (by omega)]
    · have hlt : p.vx.length - 1 < (p.vx.set (p.vx.length - 1) x).length := by
        simp; omega
      rw [List.getD_eq_getElem _ _ hlt, List.getElem_set_self hlt]
    · intro hvy
      have hposy : 0 < p.vy.length := List.length_pos.mpr hvy
      have hlt : p.vy.length - 1 < (p.vy.set (p.vy.length - 1) y).length := by
        simp; omega
      rw [List.getD_eq_getElem _ _ hlt, List.getElem_set_self hlt]
  · rfl

/-- C7 witness: the concrete single-vertex update of the claim. -/
theorem C7_witness :
    (PolygonalROI.mk [1] [1]).replace_last_point 5 5 = PolygonalROI.mk [5] [5] :=
  C7_replace_last_point_spec.2.2

/-- C8: after `update_limits(xmin, ymin, xmax, ymax)` with `xmin < xmax` and
`ymin < ymax`, the exact midpoint `((xmin+xmax)/2, (ymin+ymax)/2)` is
contained. -/
theorem C8_update_limits_midpoint (r : RectangularROI)
    (xmin ymin xmax ymax : ℚ) (hx : xmin < xmax) (hy : ymin < ymax) :
    (r.update_limits xmin ymin xmax ymax).contains
      [(xmin + xmax) / 2] [(ymin + ymax) / 2] = some [true] := by
  have h1 : xmin < (xmin + xmax) / 2 := by linarith
  have h2 : (xmin + xmax) / 2 < xmax := by linarith
  have h3 : ymin < (ymin + ymax) / 2 := by linarith
  have h4 : (ymin + ymax) / 2 < ymax := by linarith
  simp [RectangularROI.update_limits, RectangularROI.contains, h1, h2, h3, h4]

/-- C8 witness: the unit rectangle and its midpoint. -/
theorem C8_witness :
    (RectangularROI.init.update_limits 0 0 1 1).contains
      [((0 : ℚ) + 1) / 2] [((0 : ℚ) + 1) / 2] = some [true] :=
  C8_update_limits_midpoint RectangularROI.init 0 0 1 1 (by norm_num)
    (by norm_num)

/-- C9: for each of the three shapes, `reset` is idempotent and `defined`
is false immediately after any `reset`. -/
theorem C9_reset_idempotent :
    (∀ r : RectangularROI, r.reset.reset = r.reset ∧ r.reset.defined = false)
    ∧ (∀ c : CircularROI, c.reset.reset = c.reset ∧ c.reset.defined = false)
    ∧ (∀ p : PolygonalROI, p.reset.reset = p.reset ∧ p.reset.defined = false) :=
  ⟨fun _ => ⟨rfl, rfl⟩, fun _ => ⟨rfl, rfl⟩, fun _ => ⟨rfl, rfl⟩⟩

/-- C10: a fresh polygon has coordinate lists of equal length, and every
mutator — `add_point`, `replace_last_point`, `remove_point` (any threshold),
`reset` — preserves that equality; `contains` reads the state without
mutating it. -/
theorem C10_vertex_lists_equal_length :
    PolygonalROI.init.vx.length = PolygonalROI.init.vy.length
    ∧ (∀ (p : PolygonalROI) (x y : ℚ), p.vx.length = p.vy.length →
        ((p.add_point x y).vx.length = (p.add_point x y).vy.length
         ∧ (p.replace_last_point x y).vx.length =
             (p.replace_last_point x y).vy.length
         ∧ (∀ th : Option ℚ, (p.remove_point x y th).vx.length =
             (p.remove_point x y th).vy.length)
         ∧ p.reset.vx.length = p.reset.vy.length)) := by
  refine ⟨rfl, ?_⟩
  intro p x y hlen
  refine ⟨by simp [PolygonalROI.add_point, hlen], ?_, ?_, rfl⟩
  · unfold PolygonalROI.replace_last_point
    by_cases hp : p.vx.length > 0
    · rw [if_pos (by simpa using hp)]
      simpa using hlen
    · rw [if_neg (by simpa using hp)]
      exact hlen
  · intro th
    unfold PolygonalROI.remove_point
    by_cases hp : p.vx.isEmpty
    · rw [if_pos hp]
      exact hlen
    · rw [if_neg hp]
      cases th with
      | none => simp [PolygonalROI.eraseNear]
      | some t =>
          by_cases hd : (p.sqDists x y).getD (argminIdx (p.sqDists x y)) 0
              > t ^ 2
          · simp only [gt_iff_lt] at hd
            simp only [if_pos hd]
            exact hlen
          · simp only [gt_iff_lt] at hd
            simp only [if_neg hd]
            simp [PolygonalROI.eraseNear]

/-- C10 witness: the invariant propagated through a concrete `add_point`. -/
theorem C10_witness :
    (PolygonalROI.init.add_point 1 2).vx.length =
      (PolygonalROI.init.add_point 1 2).vy.length :=
  (C10_vertex_lists_equal_length.2 PolygonalROI.init 1 2 rfl).1

/-- C4: `remove_point` is a no-op on an empty vertex list; on a non-empty
list (with paired coordinates) the selected index `near` carries the minimal
squared distance to the query, every strictly smaller index carries a
strictly larger distance (ties break to the lowest index), and exactly that
vertex is deleted — unless a threshold `t` is supplied and the minimal
squared distance exceeds `t ^ 2`, in which case the polygon is unchanged.
In particular `[(0,0),(10,0),(10,10)]` at query `(1,0)` loses `(0,0)` with
no threshold and is unchanged with threshold `1/2`. -/
theorem C4_remove_point_nearest (x y : ℚ) :
    (∀ (p : PolygonalROI) (th : Option ℚ), p.vx = [] →
        p.remove_point x y th = p)
    ∧ (∀ p : PolygonalROI, p.vx ≠ [] → p.vx.length = p.vy.length →
        (argminIdx (p.sqDists x y) < (p.sqDists x y).length
         ∧ (∀ j < (p.sqDists x y).length,
             (p.sqDists x y).getD (argminIdx (p.sqDists x y)) 0 ≤
               (p.sqDists x y).getD j 0)
         ∧ (∀ j < argminIdx (p.sqDists x y),
             (p.sqDists x y).getD (argminIdx (p.sqDists x y)) 0 <
               (p.sqDists x y).getD j 0)
         ∧ p.remove_point x y none =
             { vx := p.vx.eraseIdx (argminIdx (p.sqDists x y)),
               vy := p.vy.eraseIdx (argminIdx (p.sqDists x y)) }
         ∧ (∀ t : ℚ, (p.sqDists x y).getD (argminIdx (p.sqDists x y)) 0
              > t ^ 2 → p.remove_point x y (some t) = p)
         ∧ (∀ t : ℚ, ¬((p.sqDists x y).getD (argminIdx (p.sqDists x y)) 0
              > t ^ 2) → p.remove_point x y (some t) =
             { vx := p.vx.eraseIdx (argminIdx (p.sqDists x y)),
               vy := p.vy.eraseIdx (argminIdx (p.sqDists x y)) })))
    ∧ (PolygonalROI.mk [0, 10, 10] [0, 0, 10]).remove_point 1 0 none =
        PolygonalROI.mk [10, 10] [0, 10]
    ∧ (PolygonalROI.mk [0, 10, 10] [0, 0, 10]).remove_point 1 0
        (some (1 / 2)) = PolygonalROI.mk [0, 10, 10] [0, 0, 10] := by
  refine ⟨?_, ?_, ?_, ?_⟩
  · intro p th hp
    unfold PolygonalROI.remove_point
    rw [if_pos (by simp [hp])]
  · intro p hne hlen
    have hnemp : p.vx.isEmpty = false := by
      simp [List.isEmpty_iff, hne]
    have hdlen : (p.sqDists x y).length = p.vx.length := by
      unfold PolygonalROI.sqDists
      simp [hlen]
    have hpos : 0 < (p.sqDists x y).length := by
      rw [hdlen]
      exact List.length_pos.mpr hne
    have hlt : argminIdx (p.sqDists x y) < (p.sqDists x y).length := by
      rw [argminIdx_eq_argminFold]
      exact argminFold_lt _ _ hpos
    have herase : p.eraseNear x y =
        { vx := p.vx.eraseIdx (argminIdx (p.sqDists x y)),
          vy := p.vy.eraseIdx (argminIdx (p.sqDists x y)) } := by
      unfold PolygonalROI.eraseNear
      congr 1
      · rw [hdlen, range_filter_ne_map, range_map_getD]
      · rw [hdlen, hlen, range_filter_ne_map, range_map_getD]
    refine ⟨hlt, ?_, ?_, ?_, ?_, ?_⟩
    · intro j hj
      rw [argminIdx_eq_argminFold]
      exact argminFold_min (fun i => (p.sqDists x y).getD i 0)
        (p.sqDists x y).length j hj
    · intro j hj
      rw [argminIdx_eq_argminFold]
      rw [argminIdx_eq_argminFold] at hj
      exact argminFold_first (fun i => (p.sqDists x y).getD i 0)
        (p.sqDists x y).length j hj
    · unfold PolygonalROI.remove_point
      rw [if_neg (by simp [hnemp])]
      exact herase
    · intro t ht
      unfold PolygonalROI.remove_point
      rw [if_neg (by simp [hnemp])]
      simp only [gt_iff_lt] at ht
      simp only [if_pos ht]
    · intro t ht
      unfold PolygonalROI.remove_point
      rw [if_neg (by simp [hnemp])]
      simp only [gt_iff_lt] at ht
      simp only [if_neg ht]
      exact herase
  · simp [PolygonalROI.remove_point, PolygonalROI.eraseNear,
      PolygonalROI.sqDists, argminIdx, List.range_succ, List.foldl]
    norm_num
  · simp [PolygonalROI.remove_point, PolygonalROI.eraseNear,
      PolygonalROI.sqDists, argminIdx, List.range_succ, List.foldl]
    norm_num

/-- C4 witness: applying the no-threshold clause to the claim's concrete
triangle. -/
theorem C4_witness :
    (PolygonalROI.mk [0, 10, 10] [0, 0, 10]).remove_point 1 0 none =
      PolygonalROI.mk [10, 10] [0, 10] :=
  (C4_remove_point_nearest 1 0).2.2.1

theorem crossing_eq_spec (p : PolygonalROI) (x y : ℚ)
    (hlen : p.vx.length = p.vy.length) (hne : p.vx ≠ []) :
    ∀ i : ℕ, i < p.vx.length →
      crossing (p.vx.getD i 0) (p.vy.getD i 0)
          ((roll1 p.vx).getD i 0) ((roll1 p.vy).getD i 0) x y =
        specEdgeCrosses (p.vx.zip p.vy) x y i := by
  intro i hi
  have hpos : 0 < p.vx.length := List.length_pos.mpr hne
  have hvy : p.vy ≠ [] := length_pos_ne_nil (by rw [← hlen]; exact hpos)
  have hzl : (p.vx.zip p.vy).length = p.vx.length := by
    rw [List.length_zip, ← hlen]
    exact min_self _
  have hvi : (p.vx.zip p.vy).getD i (0, 0) =
      (p.vx.getD i 0, p.vy.getD i 0) := by
    rw [List.getD_eq_getElem _ _ (by rw [hzl]; exact hi), List.getElem_zip,
      List.getD_eq_getElem _ _ hi,
      List.getD_eq_getElem _ _ (by rw [← hlen]; exact hi)]
  obtain ⟨k, hkdef⟩ : ∃ k, specPredIdx (p.vx.zip p.vy).length i = k :=
    ⟨_, rfl⟩
  have hk : k < p.vx.length := by
    rw [← hkdef]
    unfold specPredIdx
    rw [hzl]
    split <;> omega
  have hrx : (roll1 p.vx).getD i 0 = p.vx.getD k 0 := by
    cases i with
    | zero =>
        have hk0 : k = p.vx.length - 1 := by
          rw [← hkdef]
          unfold specPredIdx
          rw [if_pos rfl, hzl]
        rw [hk0]
        exact roll1_getD_zero p.vx hne 0
    | succ j =>
        have hkj : k = j := by
          rw [← hkdef]
          unfold specPredIdx
          rw [if_neg (by omega)]
          omega
        rw [hkj]
        exact roll1_getD_succ p.vx j hi 0
  have hry : (roll1 p.vy).getD i 0 = p.vy.getD k 0 := by
    cases i with
    | zero =>
        have hk0 : k = p.vx.length - 1 := by
          rw [← hkdef]
          unfold specPredIdx
          rw [if_pos rfl, hzl]
        rw [hk0, hlen]
        exact roll1_getD_zero p.vy hvy 0
    | succ j =>
        have hkj : k = j := by
          rw [← hkdef]
          unfold specPredIdx
          rw [if_neg (by omega)]
          omega
        rw [hkj]
        exact roll1_getD_succ p.vy j (by omega) 0
  have hvp : (p.vx.zip p.vy).getD k (0, 0) =
      (p.vx.getD k 0, p.vy.getD k 0) := by
    rw [List.getD_eq_getElem _ _ (by rw [hzl]; exact hk), List.getElem_zip,
      List.getD_eq_getElem _ _ hk,
      List.getD_eq_getElem _ _ (by rw [← hlen]; exact hk)]
  simp only [crossing, specEdgeCrosses, hkdef, hvi, hvp, hrx, hry]
  congr 1
  exact decide_eq_decide.mpr (by rw [add_comm])

theorem crossCount_eq_spec (p : PolygonalROI) (x y : ℚ)
    (hlen : p.vx.length = p.vy.length) (hne : p.vx ≠ []) :
    p.crossCount x y = specCrossingNumber (p.vx.zip p.vy) x y := by
  have hzl : (p.vx.zip p.vy).length = p.vx.length := by
    rw [List.length_zip, ← hlen]
    exact min_self _
  unfold PolygonalROI.crossCount specCrossingNumber
  rw [foldl_add_ite_countP, Nat.zero_add, hzl]
  apply List.countP_congr
  intro a ha
  rw [crossing_eq_spec p x y hlen hne a (List.mem_range.mp ha)]

/-- C1: for a polygon with paired, non-empty vertex lists, `contains`
classifies a sample as inside iff the number of edges `(v[i], v[i-1])`
(cyclic, vertex 0's predecessor being the last vertex) for which exactly one
endpoint satisfies `.y > y` and the horizontal ray's x-intersection exceeds
the sample's x — the specification's even-odd crossing count — is odd; the
unit square `[(0,0),(1,0),(1,1),(0,1)]` contains `(1/2, 1/2)` and not
`(2, 2)`. -/
theorem C1_polygon_even_odd (p : PolygonalROI) (x y : ℚ)
    (hlen : p.vx.length = p.vy.length) (hne : p.vx ≠ []) :
    (p.contains [x] [y] = [true] ↔
      Odd (specCrossingNumber (p.vx.zip p.vy) x y))
    ∧ unitSquare.contains [(1 : ℚ)/2] [(1 : ℚ)/2] = [true]
    ∧ unitSquare.contains [(2 : ℚ)] [(2 : ℚ)] = [false] := by
  refine ⟨?_, ?_, ?_⟩
  · have hc : p.contains [x] [y] = [p.containsPoint x y] := by
      unfold PolygonalROI.contains
      rw [if_neg (by simp [List.isEmpty_iff, hne])]
      rfl
    rw [hc]
    have hsingle : (([p.containsPoint x y] : List Bool) = [true]) ↔
        p.containsPoint x y = true := by simp
    rw [hsingle]
    unfold PolygonalROI.containsPoint
    rw [beq_iff_eq, crossCount_eq_spec p x y hlen hne, Nat.odd_iff]
  · norm_num [unitSquare, PolygonalROI.contains, PolygonalROI.containsPoint,
      PolygonalROI.crossCount, crossing, roll1, List.range_succ, List.foldl]
  · norm_num [unitSquare, PolygonalROI.contains, PolygonalROI.containsPoint,
      PolygonalROI.crossCount, crossing, roll1, List.range_succ, List.foldl]

/-- C1 witness: the unit square containing its center, via the claim's
concrete polygon discharging both hypotheses. -/
theorem C1_witness : unitSquare.contains [(1 : ℚ)/2] [(1 : ℚ)/2] = [true] :=
  (C1_polygon_even_odd unitSquare 0 0 rfl (by simp [unitSquare])).2.1

/-- C6 (amended): a horizontal edge (`v[i-1].y == v[i].y`) never counts as a
crossing — its indicator is false at every sample — but the loop body's
x-intersection expression is still evaluated on it, so its zero y-difference
is among the divisors the evaluation divides by, and the module-level
`np.seterr(all='ignore')` silences the resulting arithmetic error rather
than surfacing it. -/
theorem C6_horizontal_edge (p : PolygonalROI) (x y : ℚ) (i : ℕ)
    (hi : i < p.vx.length)
    (hhoriz : (roll1 p.vy).getD i 0 = p.vy.getD i 0) :
    crossing (p.vx.getD i 0) (p.vy.getD i 0)
        ((roll1 p.vx).getD i 0) ((roll1 p.vy).getD i 0) x y = false
    ∧ ((roll1 p.vy).getD i 0 - p.vy.getD i 0) ∈ p.containsDivisors
    ∧ (roll1 p.vy).getD i 0 - p.vy.getD i 0 = 0
    ∧ numpyErrorsSilenced = true := by
  refine ⟨?_, ?_, by rw [hhoriz, sub_self], rfl⟩
  · unfold crossing
    rw [hhoriz]
    simp
  · unfold PolygonalROI.containsDivisors
    exact List.mem_map.mpr ⟨i, List.mem_range.mpr hi, rfl⟩

/-- C6 witness: edge 1 of the unit square (from `(0,0)` to `(1,0)`) is
horizontal and never crosses. -/
theorem C6_witness :
    crossing (unitSquare.vx.getD 1 0) (unitSquare.vy.getD 1 0)
        ((roll1 unitSquare.vx).getD 1 0) ((roll1 unitSquare.vy).getD 1 0)
        ((1 : ℚ)/2) ((1 : ℚ)/2) = false :=
  (C6_horizontal_edge unitSquare ((1 : ℚ)/2) ((1 : ℚ)/2) 1
    (by norm_num [unitSquare]) (by norm_num [unitSquare, roll1])).1

/-- C6 counterexample: the unit square has horizontal edges, and the
evaluation's divisor list contains `0` — the loop body's division is
performed with a zero divisor on such an edge — while `np.seterr` keeps the
arithmetic error silenced; this refutes the claim that the evaluation never
performs an unguarded division by zero nor silently suppresses an arithmetic
error. -/
theorem C6_counterexample :
    (0 : ℚ) ∈ unitSquare.containsDivisors ∧ numpyErrorsSilenced = true := by
  refine ⟨List.mem_map.mpr ⟨1, List.mem_range.mpr (by norm_num [unitSquare]),
    ?_⟩, rfl⟩
  show (roll1 unitSquare.vy).getD 1 0 - unitSquare.vy.getD 1 0 = 0
  norm_num [unitSquare, roll1]

end Roi
